import Mathlib

/-!
Verification of the certmagic-mongodb storage backend (`mongoStore.go`).

The Go code implements `certmagic.Storage` over two MongoDB collections:
`certmagic-storage` (keyed byte records) and `certmagic-locks` (lease-based
locks with a unique index on `key` and a TTL index on `expires_at`).
We shallowly embed the store state as association lists of documents and
each operation as a pure function on that state, with the MongoDB driver's
documented call semantics (duplicate-key error on unique-index violation,
no error from `DeleteOne` when zero documents match, count 0 returned
alongside an error from `CountDocuments`) made explicit.  Wall-clock times
are naturals; byte strings are lists of naturals.
-/

/-- A document of the `certmagic-storage` collection: `{key, value, ts}`
as written by `MongoStorage.Store` (mongoStore.go lines 55-66). -/
structure StoreDoc where
  key : String
  value : List Nat
  ts : Nat
deriving DecidableEq

/-- The `certmagic-storage` collection, in insertion order. -/
abbrev StoreColl := List StoreDoc

/-- `UpdateOne(filter {key}, $set {key, value, ts}, upsert: true)` from
`MongoStorage.Store`: replace the first document matching `key` with the
new fields, or insert a fresh document when none matches. -/
def updateOneUpsert : StoreColl → String → List Nat → Nat → StoreColl
  | [], k, v, t => [⟨k, v, t⟩]
  | d :: ds, k, v, t =>
    if d.key == k then ⟨k, v, t⟩ :: ds else d :: updateOneUpsert ds k v t

/-- Outcome of the driver call `Collection.FindOne(filter {key}).Decode`:
a decoded document, the distinguished `mongo.ErrNoDocuments`, or any other
medium failure. -/
inductive FindOneResult where
  | found (doc : StoreDoc)
  | noDocuments
  | mediumFail (msg : String)
deriving DecidableEq

/-- `FindOne` on a healthy medium: the first document whose `key` field
matches, else `mongo.ErrNoDocuments`. -/
def findOneOn (docs : StoreColl) (k : String) : FindOneResult :=
  match docs.find? (fun d => d.key == k) with
  | some d => .found d
  | none => .noDocuments

/-- The error outcomes of `MongoStorage.Load`: the not-found error wraps
`os.ErrNotExist` (a distinguished condition), any other driver error is
returned as-is (mongoStore.go lines 69-78). -/
inductive LoadError where
  | notFound (msg : String)
  | medium (msg : String)
deriving DecidableEq

/-- `MongoStorage.Load`: translate the `FindOne` outcome; `ErrNoDocuments`
becomes the wrapped not-found error, other errors pass through, and a
found document yields exactly its `value` field. -/
def loadModel (k : String) : FindOneResult → Except LoadError (List Nat)
  | .found d => .ok d.value
  | .noDocuments =>
    .error (.notFound ("MongoStorage.Load key " ++ k ++ " not found: file does not exist"))
  | .mediumFail e => .error (.medium e)

/-- `Collection.DeleteOne(filter {key})`: remove the first document whose
`key` matches; removing nothing is not an error in the driver. -/
def deleteOneStore : StoreColl → String → StoreColl
  | [], _ => []
  | d :: ds, k => if d.key == k then ds else d :: deleteOneStore ds k

/-- `MongoStorage.Delete` (mongoStore.go lines 81-87): propagate a medium
error from `DeleteOne` verbatim; otherwise succeed with the new state,
whether or not a document was removed. -/
def deleteModel (docs : StoreColl) (k : String) : Option String → Except String StoreColl
  | some e => .error e
  | none => .ok (deleteOneStore docs k)

/-- `Collection.CountDocuments(filter {key})` on a healthy medium. -/
def countDocumentsOn (docs : StoreColl) (k : String) : Nat :=
  (docs.filter (fun d => d.key == k)).length

/-- Outcome of the driver call `CountDocuments`: a count, or a medium
failure (in which case the Go call also returns count 0 next to the
error). -/
inductive CountResult where
  | ok (n : Nat)
  | mediumFail (msg : String)
deriving DecidableEq

/-- `MongoStorage.Exists` (mongoStore.go lines 90-93): `count, _ :=
CountDocuments(...)` discards the error — the driver returns count 0 with
it — and the function returns `count > 0`.  The return type is `Bool`:
no error can surface. -/
def existsModel : CountResult → Bool
  | .ok n => decide (0 < n)
  | .mediumFail _ => false

/-! ### Helper lemmas for the record store -/

lemma findOneOn_updateOneUpsert (docs : StoreColl) (k : String) (v : List Nat) (t : Nat) :
    findOneOn (updateOneUpsert docs k v t) k = .found ⟨k, v, t⟩ := by
  induction docs with
  | nil => simp [updateOneUpsert, findOneOn]
  | cons d ds ih =>
    by_cases h : d.key == k
    · simp [updateOneUpsert, findOneOn, h]
    · simp only [updateOneUpsert, h, if_false, Bool.false_eq_true]
      simpa [findOneOn, List.find?, h] using ih

lemma deleteOneStore_of_no_match (docs : StoreColl) (k : String)
    (h : ∀ d ∈ docs, (d.key == k) = false) : deleteOneStore docs k = docs := by
  induction docs with
  | nil => rfl
  | cons d ds ih =>
    have hd : (d.key == k) = false := h d (List.mem_cons_self d ds)
    simp only [deleteOneStore, hd, if_false, Bool.false_eq_true]
    rw [ih (fun x hx => h x (List.mem_cons_of_mem d hx))]

lemma find?_eq_none_iff_no_match (docs : StoreColl) (k : String) :
    docs.find? (fun d => d.key == k) = none ↔ ∀ d ∈ docs, (d.key == k) = false := by
  rw [List.find?_eq_none]
  constructor
  · intro h d hd
    simpa using h d hd
  · intro h d hd
    simpa using h d hd

lemma deleteOneStore_no_match_left (docs : StoreColl) (k : String)
    (h : (docs.filter (fun d => d.key == k)).length ≤ 1) :
    ∀ d ∈ deleteOneStore docs k, (d.key == k) = false := by
  induction docs with
  | nil => intro d hd; simp [deleteOneStore] at hd
  | cons d ds ih =>
    by_cases hd : d.key == k
    · simp only [deleteOneStore, hd, if_true]
      intro x hx
      have hlen : (ds.filter (fun d => d.key == k)).length = 0 := by
        simp only [List.filter_cons, hd, if_true, List.length_cons] at h
        omega
      have : ds.filter (fun d => d.key == k) = [] := List.length_eq_zero.mp hlen
      have hall := List.filter_eq_nil_iff.mp this
      simpa using hall x hx
    · simp only [deleteOneStore, hd, if_false, Bool.false_eq_true]
      intro x hx
      rcases List.mem_cons.mp hx with rfl | hx'
      · simpa using hd
      · apply ih _ x hx'
        simp only [List.filter_cons, hd, if_false, Bool.false_eq_true] at h
        exact h

/-! ### Claim theorems for the record store -/

/-- C6: `Store(K, V); Load(K)` with no intervening write returns exactly
`V` untransformed; `Load` on a key with no record yields the distinguished
not-found error, which no medium error can equal. -/
theorem store_load_round_trip :
    ∀ (docs : StoreColl) (k : String) (v : List Nat) (t : Nat),
      loadModel k (findOneOn (updateOneUpsert docs k v t) k) = .ok v
      ∧ (∀ (docs2 : StoreColl) (k2 : String),
           docs2.find? (fun d => d.key == k2) = none →
           loadModel k2 (findOneOn docs2 k2) =
             .error (.notFound ("MongoStorage.Load key " ++ k2 ++ " not found: file does not exist")))
      ∧ (∀ a b : String, LoadError.notFound a ≠ LoadError.medium b) := by
  intro docs k v t
  refine ⟨?_, ?_, ?_⟩
  · rw [findOneOn_updateOneUpsert]; rfl
  · intro docs2 k2 h
    simp [findOneOn, h, loadModel]
  · intro a b hab
    cases hab

/-- C6 witness: a concrete round trip and a concrete not-found. -/
theorem store_load_round_trip_witness :
    loadModel "a/1" (findOneOn (updateOneUpsert [] "a/1" [7, 8] 5) "a/1") = .ok [7, 8]
    ∧ loadModel "x" (findOneOn [] "x") =
        .error (.notFound ("MongoStorage.Load key " ++ "x" ++ " not found: file does not exist"))
    ∧ LoadError.notFound "m" ≠ LoadError.medium "m" := by
  obtain ⟨h1, h2, h3⟩ := store_load_round_trip [] "a/1" [7, 8] 5
  exact ⟨h1, h2 [] "x" (by decide), h3 "m" "m"⟩

/-- C7: `Delete(K)` when no record for `K` exists succeeds without error
and leaves the state unchanged, and when at most one record matched `K`
the second of two back-to-back deletes is such a no-op success. -/
theorem delete_idempotent :
    ∀ (docs : StoreColl) (k : String),
      (docs.find? (fun d => d.key == k) = none → deleteModel docs k none = .ok docs)
      ∧ ((docs.filter (fun d => d.key == k)).length ≤ 1 →
           deleteModel (deleteOneStore docs k) k none = .ok (deleteOneStore docs k)) := by
  intro docs k
  constructor
  · intro h
    have := deleteOneStore_of_no_match docs k ((find?_eq_none_iff_no_match docs k).mp h)
    simp [deleteModel, this]
  · intro h
    have hnone := deleteOneStore_no_match_left docs k h
    have := deleteOneStore_of_no_match (deleteOneStore docs k) k hnone
    simp [deleteModel, this]

/-- C7 witness: deleting a missing key from a one-record store, and the
second of two deletes of a present key, both return success. -/
theorem delete_idempotent_witness :
    deleteModel [⟨"a/1", [7], 5⟩] "b/1" none = .ok [⟨"a/1", [7], 5⟩]
    ∧ deleteModel (deleteOneStore [⟨"a/1", [7], 5⟩] "a/1") "a/1" none =
        .ok (deleteOneStore [⟨"a/1", [7], 5⟩] "a/1") := by
  obtain ⟨h1, h2⟩ := delete_idempotent [⟨"a/1", [7], 5⟩] "b/1"
  obtain ⟨h3, h4⟩ := delete_idempotent [⟨"a/1", [7], 5⟩] "a/1"
  exact ⟨h1 (by decide), h4 (by decide)⟩

/-- C8: `Exists` is total (`Bool`-valued, no error channel), returns true
exactly when the count of records matching the key is positive, collapses
any medium failure to `false`, and a `false` result cannot distinguish an
absent key from a failed check. -/
theorem exists_total_swallows_errors :
    (∀ (docs : StoreColl) (k : String),
       existsModel (.ok (countDocumentsOn docs k)) =
         decide (0 < (docs.filter (fun d => d.key == k)).length))
    ∧ (∀ e : String, existsModel (.mediumFail e) = false)
    ∧ existsModel (.ok (countDocumentsOn [] "k")) = false
    ∧ existsModel (.mediumFail "medium unreachable") = false := by
  refine ⟨fun docs k => rfl, fun e => rfl, rfl, rfl⟩

/-! ### The `List` operation and its regex filter -/

/-- One pattern character of the anchored filter regex against one subject
character: `.` matches any character, every other character used here
matches itself literally.  This models the fragment of the server's
PCRE-style `$regex` semantics reachable from patterns built of literal
characters and `.`. -/
def regexCharMatches (p c : Char) : Bool :=
  p == '.' || p == c

/-- Matching the pattern characters (the part after the `^` anchor)
against the front of the subject: the pattern must be consumed entirely,
the subject may continue. -/
def regexMatchesAtStart : List Char → List Char → Bool
  | [], _ => true
  | _ :: _, [] => false
  | p :: ps, c :: cs => regexCharMatches p c && regexMatchesAtStart ps cs

/-- The filter `{key: {$regex: "^" ++ pfx}}` that `MongoStorage.List`
builds (mongoStore.go line 97): the anchored pattern, applied to a key. -/
def mongoListFilter (pfx key : String) : Bool :=
  regexMatchesAtStart pfx.toList key.toList

/-- `MongoStorage.List` (mongoStore.go lines 96-112): collect the `key`
field of every stored document the regex filter matches; the `recursive`
argument is never read. -/
def listModel (docs : StoreColl) (pfx : String) (recursive : Bool) : List String :=
  (docs.filter (fun d => mongoListFilter pfx d.key)).map (fun d => d.key)

/-- The characters that are metacharacters in the server's regex dialect;
a pattern free of them matches only itself, character by character. -/
def pcreMetachars : List Char :=
  ['.', '^', '$', '*', '+', '?', '(', ')', '[', ']', '\x7b', '\x7d', '\\', '|']

/-! ### Helper lemmas for `List` -/

lemma regexMatchesAtStart_of_literal (ps : List Char)
    (hps : ∀ p ∈ ps, pcreMetachars.contains p = false) :
    ∀ cs : List Char, regexMatchesAtStart ps cs = List.isPrefixOf ps cs := by
  induction ps with
  | nil => intro cs; cases cs <;> rfl
  | cons p ps ih =>
    intro cs
    have hp : pcreMetachars.contains p = false := hps p (List.mem_cons_self p ps)
    have hdot : (p == '.') = false := by
      cases hpd : p == '.' with
      | false => rfl
      | true =>
        have : p = '.' := by simpa using hpd
        subst this
        simp [pcreMetachars] at hp
    cases cs with
    | nil => rfl
    | cons c cs =>
      simp only [regexMatchesAtStart, regexCharMatches, hdot, Bool.false_or,
        List.isPrefixOf]
      rw [ih (fun x hx => hps x (List.mem_cons_of_mem p hx)) cs]

/-! ### Claim theorems for `List` -/

/-- C9 counterexample: with the single stored key `"ab"`, `List "a."`
returns `["ab"]` although `"ab"` does not start with the prefix string
`"a."` — the unescaped prefix is interpreted as a regex, where `.`
matches any character. -/
theorem list_regex_not_literal_start :
    listModel [⟨"ab", [], 0⟩] "a." true = ["ab"]
    ∧ List.isPrefixOf "a.".toList "ab".toList = false := by
  constructor <;> rfl

/-- C9 amended: `List pfx recursive` returns the keys the anchored regex
`^pfx` matches, in store order; the `recursive` flag never changes the
result; when `pfx` contains no regex metacharacter this is exactly the
keys that literally start with `pfx`, and on the spec's example store
`{"a/1", "a/2", "b/1"}` the result of `List "a"` is exactly
`{"a/1", "a/2"}`. -/
theorem list_prefix_matching :
    ∀ (docs : StoreColl) (pfx : String) (recursive : Bool),
      listModel docs pfx recursive = listModel docs pfx false
      ∧ ((∀ p ∈ pfx.toList, pcreMetachars.contains p = false) →
           listModel docs pfx recursive =
             (docs.filter (fun d => List.isPrefixOf pfx.toList d.key.toList)).map
               (fun d => d.key))
      ∧ listModel [⟨"a/1", [], 0⟩, ⟨"a/2", [], 0⟩, ⟨"b/1", [], 0⟩] "a" recursive =
          ["a/1", "a/2"] := by
  intro docs pfx recursive
  refine ⟨rfl, ?_, rfl⟩
  intro h
  unfold listModel
  congr 1
  apply List.filter_congr
  intro d _
  exact regexMatchesAtStart_of_literal pfx.toList h d.key.toList

/-- C9 amended witness: concrete evaluation on the spec's example store,
with the literal prefix `"a"`. -/
theorem list_prefix_matching_witness :
    listModel [⟨"a/1", [], 0⟩, ⟨"a/2", [], 0⟩, ⟨"b/1", [], 0⟩] "a" true =
      (([⟨"a/1", [], 0⟩, ⟨"a/2", [], 0⟩, ⟨"b/1", [], 0⟩] :
          StoreColl).filter (fun d => List.isPrefixOf "a".toList d.key.toList)).map
        (fun d => d.key) := by
  obtain ⟨h1, h2, h3⟩ :=
    list_prefix_matching [⟨"a/1", [], 0⟩, ⟨"a/2", [], 0⟩, ⟨"b/1", [], 0⟩] "a" true
  exact h2 (by decide)

/-! ### The lock collection and the storage handle -/

/-- A document of the `certmagic-locks` collection: `{key, instance,
expires_at}` as inserted by `MongoStorage.Lock` (mongoStore.go lines
135-139).  The bson field `instance` is called `instanceId` here because
`instance` is a reserved word. -/
structure LockDoc where
  key : String
  instanceId : String
  expiresAt : Nat
deriving DecidableEq

/-- The `certmagic-locks` collection, in insertion order. -/
abbrev LockColl := List LockDoc

/-- The fields of `MongoStorage` the behavior depends on: `LockTTL` and
`InstanceID` (the collection handles are the explicit states above). -/
structure MongoStorage where
  lockTTL : Nat
  instanceID : String
deriving DecidableEq

/-- `os.Hostname()`'s result with the error discarded, as in `hostname, _
:= os.Hostname()` (mongoStore.go line 44): on failure the name returned
next to the error is the empty string. -/
def hostnameOrEmpty : Except String String → String
  | .ok h => h
  | .error _ => ""

/-- `NewMongoStorage` (mongoStore.go lines 24-52): if creating the unique
`key` index and the `expires_at` TTL index fails, return that error;
otherwise return a handle with a 60-second lease and the hostname (error
discarded) as `InstanceID`. -/
def newMongoStorage (indexCreation : Except String Unit)
    (hostnameRes : Except String String) : Except String MongoStorage :=
  match indexCreation with
  | .error e => .error e
  | .ok _ => .ok { lockTTL := 60, instanceID := hostnameOrEmpty hostnameRes }

/-- `Locks.InsertOne` under the unique index on `key` that
`NewMongoStorage` creates (mongoStore.go lines 28-38): the insert fails
with a duplicate-key error exactly when a document with the same `key` is
present, and otherwise appends the document.  This is the store's
linearization point for lock acquisition. -/
def insertLockDoc (locks : LockColl) (d : LockDoc) : Except Unit LockColl :=
  if locks.any (fun x => x.key == d.key) then .error () else .ok (locks ++ [d])

/-- Whether some document for `key` is present, i.e. the lock is held. -/
def holdsLock (locks : LockColl) (key : String) : Bool :=
  locks.any (fun x => x.key == key)

/-- `Locks.DeleteOne(filter {key, instance})` from `MongoStorage.Unlock`:
remove the first document matching BOTH fields; removing nothing is not
an error in the driver. -/
def deleteOneLock : LockColl → String → String → LockColl
  | [], _, _ => []
  | d :: ds, k, inst =>
    if d.key == k && d.instanceId == inst then ds
    else d :: deleteOneLock ds k inst

/-- `MongoStorage.Unlock` (mongoStore.go lines 166-175): wrap a medium
error from `DeleteOne`; otherwise return success with the new state,
whether or not a document matched. -/
def unlockModel (m : MongoStorage) (key : String) (locks : LockColl) :
    Option String → Except String LockColl
  | some e => .error ("failed to release lock for key " ++ key ++ ": " ++ e)
  | none => .ok (deleteOneLock locks key m.instanceID)

/-! ### Helper lemmas for the lock collection -/

lemma mem_deleteOneLock_of_not_match (locks : LockColl) (k inst : String) :
    ∀ d ∈ locks, (d.key == k && d.instanceId == inst) = false →
      d ∈ deleteOneLock locks k inst := by
  induction locks with
  | nil => intro d hd; cases hd
  | cons x xs ih =>
    intro d hd hne
    by_cases hx : x.key == k && x.instanceId == inst
    · simp only [deleteOneLock, hx, if_true]
      rcases List.mem_cons.mp hd with rfl | hd'
      · rw [hx] at hne; cases hne
      · exact hd'
    · simp only [deleteOneLock, hx, if_false, Bool.false_eq_true]
      rcases List.mem_cons.mp hd with rfl | hd'
      · exact List.mem_cons_self _ _
      · exact List.mem_cons_of_mem _ (ih d hd' hne)

lemma deleteOneLock_of_no_match (locks : LockColl) (k inst : String)
    (h : ∀ d ∈ locks, (d.key == k && d.instanceId == inst) = false) :
    deleteOneLock locks k inst = locks := by
  induction locks with
  | nil => rfl
  | cons x xs ih =>
    have hx := h x (List.mem_cons_self x xs)
    simp only [deleteOneLock, hx, if_false, Bool.false_eq_true]
    rw [ih (fun d hd => h d (List.mem_cons_of_mem x hd))]

/-! ### Claim theorems for Unlock and NewMongoStorage -/

/-- C2 counterexample: a lock on `"k"` is held by instance `"hostB"`; an
`Unlock "k"` issued by instance `"hostA"` finds no matching document
(wrong holder) yet returns success, not an error — refuting the claim
that a missing match is surfaced as an error. -/
theorem unlock_no_match_silently_succeeds :
    unlockModel ⟨60, "hostA"⟩ "k" [⟨"k", "hostB", 99⟩] none =
      .ok [⟨"k", "hostB", 99⟩] := by
  rfl

/-- C2 amended: `Unlock K` deletes only a document matching both `K` and
the caller's own `InstanceID` — every document of a different key or a
different holder survives — and when no document matches both fields it
returns success with the state unchanged (silent no-op, not an error);
an error is returned only when the delete call itself fails, wrapped
with the key. -/
theorem unlock_scoped_to_holder :
    ∀ (m : MongoStorage) (locks : LockColl) (key : String),
      (∀ d ∈ locks, (d.key == key && d.instanceId == m.instanceID) = false →
         d ∈ deleteOneLock locks key m.instanceID)
      ∧ ((∀ d ∈ locks, (d.key == key && d.instanceId == m.instanceID) = false) →
           unlockModel m key locks none = .ok locks)
      ∧ (∀ e : String, unlockModel m key locks (some e) =
           .error ("failed to release lock for key " ++ key ++ ": " ++ e)) := by
  intro m locks key
  refine ⟨mem_deleteOneLock_of_not_match locks key m.instanceID, ?_, fun e => rfl⟩
  intro h
  simp only [unlockModel, deleteOneLock_of_no_match locks key m.instanceID h]

/-- C2 amended witness: with holder `"hostA"`, another holder's live lock
on the same key survives the delete and the call returns success. -/
theorem unlock_scoped_to_holder_witness :
    (⟨"k", "hostB", 99⟩ : LockDoc) ∈ deleteOneLock [⟨"k", "hostB", 99⟩] "k" "hostA"
    ∧ unlockModel ⟨60, "hostA"⟩ "k" [⟨"k", "hostB", 99⟩] none = .ok [⟨"k", "hostB", 99⟩]
    ∧ unlockModel ⟨60, "hostA"⟩ "k" [⟨"k", "hostB", 99⟩] (some "socket closed") =
        .error ("failed to release lock for key " ++ "k" ++ ": " ++ "socket closed") := by
  obtain ⟨h1, h2, h3⟩ := unlock_scoped_to_holder ⟨60, "hostA"⟩ [⟨"k", "hostB", 99⟩] "k"
  refine ⟨h1 ⟨"k", "hostB", 99⟩ (by decide) (by decide), h2 (by decide), h3 "socket closed"⟩

/-- C10: a successful `NewMongoStorage` sets `InstanceID` to the hostname
with the lookup error discarded (empty string when the lookup fails), so
two handles built from the same hostname value share one holder identity,
and an `Unlock` by either deletes a lock document the other inserted. -/
theorem instance_id_is_hostname :
    ∀ (ic : Except String Unit) (h1 h2 : Except String String) (m1 m2 : MongoStorage),
      newMongoStorage ic h1 = .ok m1 → newMongoStorage ic h2 = .ok m2 → h1 = h2 →
      m1.instanceID = hostnameOrEmpty h1
      ∧ (∀ e : String, hostnameOrEmpty (.error e) = "")
      ∧ m1.instanceID = m2.instanceID
      ∧ (∀ (k : String) (t : Nat),
           deleteOneLock [⟨k, m2.instanceID, t⟩] k m1.instanceID = []) := by
  intro ic h1 h2 m1 m2 e1 e2 hh
  cases ic with
  | error e => cases e1
  | ok u =>
    simp only [newMongoStorage, Except.ok.injEq] at e1 e2
    subst e1; subst e2; subst hh
    refine ⟨rfl, fun e => rfl, rfl, ?_⟩
    intro k t
    simp [deleteOneLock]

/-- C10 witness: two handles constructed with hostname `"web-1"` share
`InstanceID`, and one's `Unlock` filter removes the other's lock. -/
theorem instance_id_is_hostname_witness :
    (match newMongoStorage (.ok ()) (.ok "web-1") with
      | .ok m => m.instanceID
      | .error _ => "?") = hostnameOrEmpty (.ok "web-1")
    ∧ hostnameOrEmpty (.error "lookup failed") = ""
    ∧ deleteOneLock [⟨"cert-x", hostnameOrEmpty (.ok "web-1"), 60⟩] "cert-x"
        (hostnameOrEmpty (.ok "web-1")) = [] := by
  obtain ⟨h1, h2, h3, h4⟩ :=
    instance_id_is_hostname (.ok ()) (.ok "web-1") (.ok "web-1")
      ⟨60, "web-1"⟩ ⟨60, "web-1"⟩ rfl rfl rfl
  exact ⟨h1, h2 "lookup failed", h4 "cert-x" 60⟩

/-! ### The Lock acquisition loop -/

/-- Outcome of one `Locks.InsertOne` attempt as the loop classifies it:
success, `mongo.IsDuplicateKeyError`, or any other error. -/
inductive InsertOutcome where
  | ok
  | dupKey
  | err (msg : String)
deriving DecidableEq

/-- The value `MongoStorage.Lock` returns: `nil` once the insert lands
(carrying here the document it wrote), the wrapped `ctx.Err()` on
cancellation, or the wrapped insert error. -/
inductive LockOutcome where
  | acquired (doc : LockDoc)
  | cancelled (msg : String)
  | failed (msg : String)
deriving DecidableEq

/-- The observable events of one run of the loop, in program order:
the `select` on `ctx.Done()`, an `InsertOne` attempt carrying the
document it sends, and the fixed 2-second `time.Sleep` back-off. -/
inductive LockEvent where
  | checkCancel (i : Nat)
  | insertAttempt (i : Nat) (doc : LockDoc)
  | sleepBackoff (i : Nat)
deriving DecidableEq

/-- The environment a run of `Lock` unfolds in: whether `ctx.Done()` has
fired by iteration `i`, what iteration `i`'s insert returns, the wall
clock at the start of iteration `i` (`now 0` is the clock at function
entry, where `time.Now()` is called), and the text of `ctx.Err()`. -/
structure LockEnv where
  ctxDone : Nat → Bool
  insertResult : Nat → InsertOutcome
  now : Nat → Nat
  ctxErrMsg : String

/-- The lock document `Lock` builds ONCE, before entering the loop
(mongoStore.go lines 133-139): `expires_at` is the entry-time clock plus
`LockTTL`. -/
def lockDocFor (m : MongoStorage) (key : String) (t0 : Nat) : LockDoc :=
  ⟨key, m.instanceID, t0 + m.lockTTL⟩

/-- The `for { select ... } }` loop of `MongoStorage.Lock` (mongoStore.go
lines 141-163), from iteration `i` with `fuel` iterations of budget
(`none` = still looping when the budget runs out; the real loop is
unbounded).  Each iteration: poll `ctx.Done()` first; if not fired, send
the pre-built document; on success return `nil`; on a duplicate-key error
sleep and loop; on any other error return it wrapped with the key. -/
def lockLoop (env : LockEnv) (key : String) (doc : LockDoc) :
    Nat → Nat → List LockEvent × Option LockOutcome
  | _, 0 => ([], none)
  | i, fuel + 1 =>
    if env.ctxDone i then
      ([.checkCancel i],
       some (.cancelled ("timeout acquiring lock for key " ++ key ++ ": " ++ env.ctxErrMsg)))
    else
      match env.insertResult i with
      | .ok => ([.checkCancel i, .insertAttempt i doc], some (.acquired doc))
      | .dupKey =>
        let rest := lockLoop env key doc (i + 1) fuel
        (.checkCancel i :: .insertAttempt i doc :: .sleepBackoff i :: rest.1, rest.2)
      | .err e =>
        ([.checkCancel i, .insertAttempt i doc],
         some (.failed ("error trying to acquire lock for key " ++ key ++ ": " ++ e)))

/-- `MongoStorage.Lock`: build the document from the entry-time clock,
then run the loop from iteration 0. -/
def lockModel (m : MongoStorage) (env : LockEnv) (key : String) (fuel : Nat) :
    List LockEvent × Option LockOutcome :=
  lockLoop env key (lockDocFor m key (env.now 0)) 0 fuel

/-- The event trace of `n` consecutive contended iterations starting at
iteration `i`: each one polls cancellation, attempts the insert, and
sleeps the fixed back-off. -/
def dupAttemptsTrace (doc : LockDoc) : Nat → Nat → List LockEvent
  | _, 0 => []
  | i, n + 1 =>
    .checkCancel i :: .insertAttempt i doc :: .sleepBackoff i ::
      dupAttemptsTrace doc (i + 1) n

/-! ### Helper lemmas for the Lock loop -/

lemma lockLoop_dup_run (env : LockEnv) (key : String) (doc : LockDoc) :
    ∀ (n i fuel : Nat),
      (∀ t, t < n → env.ctxDone (i + t) = false) →
      (∀ t, t < n → env.insertResult (i + t) = .dupKey) →
      lockLoop env key doc i (n + fuel) =
        ((dupAttemptsTrace doc i n) ++ (lockLoop env key doc (i + n) fuel).1,
         (lockLoop env key doc (i + n) fuel).2) := by
  intro n
  induction n with
  | zero => intro i fuel _ _; simp [dupAttemptsTrace]
  | succ n ih =>
    intro i fuel hdone hins
    have hd0 : env.ctxDone i = false := by simpa using hdone 0 (Nat.succ_pos n)
    have hi0 : env.insertResult i = .dupKey := by simpa using hins 0 (Nat.succ_pos n)
    have hdone' : ∀ t, t < n → env.ctxDone (i + 1 + t) = false := by
      intro t ht
      have he : i + 1 + t = i + (t + 1) := by omega
      rw [he]
      exact hdone (t + 1) (by omega)
    have hins' : ∀ t, t < n → env.insertResult (i + 1 + t) = .dupKey := by
      intro t ht
      have he : i + 1 + t = i + (t + 1) := by omega
      rw [he]
      exact hins (t + 1) (by omega)
    have hrec := ih (i + 1) fuel hdone' hins'
    have hfuel : n + 1 + fuel = (n + fuel) + 1 := by omega
    rw [hfuel]
    simp only [lockLoop, hd0, Bool.false_eq_true, if_false, hi0]
    rw [hrec]
    have hidx : i + 1 + n = i + (n + 1) := by omega
    rw [hidx]
    simp [dupAttemptsTrace]

lemma lockLoop_insert_doc_fixed (env : LockEnv) (key : String) (doc : LockDoc) :
    ∀ (fuel i : Nat) (j : Nat) (d : LockDoc),
      LockEvent.insertAttempt j d ∈ (lockLoop env key doc i fuel).1 → d = doc := by
  intro fuel
  induction fuel with
  | zero => intro i j d h; simp [lockLoop] at h
  | succ fuel ih =>
    intro i j d h
    by_cases hd : env.ctxDone i
    · simp [lockLoop, hd] at h
    · cases hins : env.insertResult i with
      | ok =>
        simp only [lockLoop, hd, Bool.false_eq_true, if_false, hins] at h
        simp at h
        exact h.2
      | dupKey =>
        simp only [lockLoop, hd, Bool.false_eq_true, if_false, hins] at h
        simp at h
        rcases h with ⟨hji, hdd⟩ | h
        · exact hdd
        · exact ih (i + 1) j d h
      | err e =>
        simp only [lockLoop, hd, Bool.false_eq_true, if_false, hins] at h
        simp at h
        exact h.2

/-! ### Claim theorems for the Lock loop -/

/-- A run environment where the first insert hits a concurrent holder
and the second (two seconds later, after the back-off) succeeds. -/
def envStaleLease : LockEnv where
  ctxDone := fun _ => false
  insertResult := fun i => if i == 0 then .dupKey else .ok
  now := fun i => 2 * i
  ctxErrMsg := "context canceled"

/-- C3 counterexample: with a 60-second lease, entry clock 0 and the
retry that succeeds running at clock 2, the successful attempt (iteration
1) writes `expires_at = 60`, the value computed before the loop, not that
attempt's `now + lease = 62` — `Lock` never recomputes the expiry inside
the loop. -/
theorem lock_expiry_stale_on_retry :
    (lockModel ⟨60, "host"⟩ envStaleLease "k" 2).2 =
      some (.acquired ⟨"k", "host", 60⟩)
    ∧ LockEvent.insertAttempt 1 ⟨"k", "host", 60⟩ ∈
        (lockModel ⟨60, "host"⟩ envStaleLease "k" 2).1
    ∧ envStaleLease.now 1 + (60 : Nat) = 62
    ∧ (60 : Nat) ≠ 62 := by
  refine ⟨by decide, by decide, by decide, by decide⟩

/-- C3 amended: the lease expiry is computed exactly once, before the
retry loop, as the entry-time clock plus the lease duration; every insert
attempt of the run — whichever finally succeeds — carries that same
document, whose `expires_at` is `now-at-entry + LockTTL`, not a value
recomputed at the attempt. -/
theorem lock_expiry_computed_once :
    ∀ (m : MongoStorage) (env : LockEnv) (key : String) (fuel i : Nat) (d : LockDoc),
      LockEvent.insertAttempt i d ∈ (lockModel m env key fuel).1 →
      d = lockDocFor m key (env.now 0) ∧ d.expiresAt = env.now 0 + m.lockTTL := by
  intro m env key fuel i d h
  have hd := lockLoop_insert_doc_fixed env key (lockDocFor m key (env.now 0)) fuel 0 i d h
  subst hd
  exact ⟨rfl, rfl⟩

/-- C3 amended witness: the insert of iteration 1 in the concrete run
carries the document built at entry time. -/
theorem lock_expiry_computed_once_witness :
    (⟨"k", "host", 60⟩ : LockDoc) = lockDocFor ⟨60, "host"⟩ "k" (envStaleLease.now 0)
    ∧ (⟨"k", "host", 60⟩ : LockDoc).expiresAt =
        envStaleLease.now 0 + (⟨60, "host"⟩ : MongoStorage).lockTTL :=
  lock_expiry_computed_once ⟨60, "host"⟩ envStaleLease "k" 2 1 ⟨"k", "host", 60⟩ (by decide)

/-- C4: on a contended key, if the context becomes done at iteration `j`
(after Δt worth of contended iterations), the run's full event trace is
`j` iterations of poll-insert-sleep followed by one final cancellation
poll, and the loop returns the wrapped `ctx.Err()` right there: the
cancellation signal is polled at the head of every iteration — before
that iteration's insert and before its back-off sleep — and once it has
fired no further insert or sleep occurs, so the return is bounded by a
single back-off interval past Δt rather than blocking indefinitely. -/
theorem lock_cancellation_prompt :
    ∀ (m : MongoStorage) (env : LockEnv) (key : String) (j : Nat),
      (∀ i, env.ctxDone i = decide (j ≤ i)) →
      (∀ i, i < j → env.insertResult i = .dupKey) →
      lockModel m env key (j + 1) =
        (dupAttemptsTrace (lockDocFor m key (env.now 0)) 0 j ++ [.checkCancel j],
         some (.cancelled ("timeout acquiring lock for key " ++ key ++ ": " ++ env.ctxErrMsg))) := by
  intro m env key j hdone hins
  unfold lockModel
  have h1 := lockLoop_dup_run env key (lockDocFor m key (env.now 0)) j 0 1
    (fun t ht => by rw [hdone]; simp; omega)
    (fun t ht => by simpa using hins t ht)
  rw [h1]
  have hj : env.ctxDone j = true := by rw [hdone]; simp
  simp [lockLoop, hj]

/-- C4 witness: cancellation firing at iteration 1 of a contended
acquisition ends the run at that iteration's poll. -/
theorem lock_cancellation_prompt_witness :
    lockModel ⟨60, "host"⟩
        ⟨fun i => decide (1 ≤ i), fun _ => .dupKey, fun i => 2 * i, "context canceled"⟩
        "cert-x" 2 =
      (dupAttemptsTrace
          (lockDocFor ⟨60, "host"⟩ "cert-x"
            ((⟨fun i => decide (1 ≤ i), fun _ => .dupKey, fun i => 2 * i,
                "context canceled"⟩ : LockEnv).now 0)) 0 1 ++ [.checkCancel 1],
       some (.cancelled ("timeout acquiring lock for key " ++ "cert-x" ++ ": " ++ "context canceled"))) :=
  lock_cancellation_prompt ⟨60, "host"⟩
    ⟨fun i => decide (1 ≤ i), fun _ => .dupKey, fun i => 2 * i, "context canceled"⟩
    "cert-x" 1 (fun i => rfl) (fun i _ => rfl)

/-- C5: the first insert attempt that fails with anything other than a
duplicate-key error ends the run at once: the trace stops at that attempt
(no back-off sleep after it, no further attempt), and the return value is
that error wrapped with the operation text and the key — contention
(`dupKey`) is the only outcome that is retried. -/
theorem lock_fail_fast_on_medium_error :
    ∀ (m : MongoStorage) (env : LockEnv) (key : String) (n : Nat) (e : String),
      (∀ t, t ≤ n → env.ctxDone t = false) →
      (∀ t, t < n → env.insertResult t = .dupKey) →
      env.insertResult n = .err e →
      lockModel m env key (n + 1) =
        (dupAttemptsTrace (lockDocFor m key (env.now 0)) 0 n ++
           [.checkCancel n, .insertAttempt n (lockDocFor m key (env.now 0))],
         some (.failed ("error trying to acquire lock for key " ++ key ++ ": " ++ e))) := by
  intro m env key n e hdone hins herr
  unfold lockModel
  have h1 := lockLoop_dup_run env key (lockDocFor m key (env.now 0)) n 0 1
    (fun t ht => by simpa using hdone t (Nat.le_of_lt ht))
    (fun t ht => by simpa using hins t ht)
  rw [h1]
  have hn : env.ctxDone n = false := hdone n (Nat.le_refl n)
  simp [lockLoop, hn, herr]

/-- C5 witness: after one contended attempt, a medium failure at
iteration 1 aborts the run with the wrapped error. -/
theorem lock_fail_fast_on_medium_error_witness :
    lockModel ⟨60, "host"⟩
        ⟨fun _ => false, fun i => if i == 0 then .dupKey else .err "server unreachable",
         fun i => 2 * i, "context canceled"⟩ "cert-x" 2 =
      (dupAttemptsTrace
          (lockDocFor ⟨60, "host"⟩ "cert-x"
            ((⟨fun _ => false, fun i => if i == 0 then .dupKey else .err "server unreachable",
                fun i => 2 * i, "context canceled"⟩ : LockEnv).now 0)) 0 1 ++
         [.checkCancel 1,
          .insertAttempt 1
            (lockDocFor ⟨60, "host"⟩ "cert-x"
              ((⟨fun _ => false, fun i => if i == 0 then .dupKey else .err "server unreachable",
                  fun i => 2 * i, "context canceled"⟩ : LockEnv).now 0))],
       some (.failed ("error trying to acquire lock for key " ++ "cert-x" ++ ": " ++ "server unreachable"))) :=
  lock_fail_fast_on_medium_error ⟨60, "host"⟩
    ⟨fun _ => false, fun i => if i == 0 then .dupKey else .err "server unreachable",
     fun i => 2 * i, "context canceled"⟩
    "cert-x" 1 "server unreachable" (fun t _ => rfl) (fun t ht => by interval_cases t <;> rfl) rfl

/-! ### Mutual exclusion over interleaved lock operations -/

/-- The mutual-exclusion invariant of the `certmagic-locks` collection:
for every key, at most one lock document is present. -/
def atMostOneLockPerKey (locks : LockColl) : Prop :=
  ∀ K : String, (locks.filter (fun x => x.key == K)).length ≤ 1

/-- One atomic step some process performs against the shared lock
collection, in any interleaving of concurrent callers: a successful
`InsertOne` (an acquisition), an `InsertOne` rejected by the unique index
(the conflicting caller backs off and the state is unchanged), the
`DeleteOne` of an `Unlock` by any caller, or the store's autonomous TTL
sweep at clock `t` removing the documents whose `expires_at` has
passed. -/
inductive LockStep : LockColl → LockColl → Prop where
  | acquire (s s' : LockColl) (d : LockDoc) :
      insertLockDoc s d = .ok s' → LockStep s s'
  | acquireConflict (s : LockColl) (d : LockDoc) :
      insertLockDoc s d = .error () → LockStep s s
  | release (s : LockColl) (k inst : String) : LockStep s (deleteOneLock s k inst)
  | ttlExpire (s : LockColl) (t : Nat) :
      LockStep s (s.filter (fun d => decide (t < d.expiresAt)))

/-- The lock-collection states reachable from the empty collection by any
interleaving of concurrent callers' steps. -/
def ReachableLocks (s : LockColl) : Prop :=
  Relation.ReflTransGen LockStep [] s

/-! ### Helper lemmas for mutual exclusion -/

lemma deleteOneLock_sublist (s : LockColl) (k inst : String) :
    (deleteOneLock s k inst).Sublist s := by
  induction s with
  | nil => simp [deleteOneLock]
  | cons d ds ih =>
    by_cases h : d.key == k && d.instanceId == inst
    · simp only [deleteOneLock, h, if_true]
      exact List.sublist_cons_self d ds
    · simp only [deleteOneLock, h, if_false, Bool.false_eq_true]
      exact List.Sublist.cons₂ d ih

lemma atMostOne_of_sublist {s' s : LockColl} (h : s'.Sublist s)
    (inv : atMostOneLockPerKey s) : atMostOneLockPerKey s' := by
  intro K
  exact le_trans (List.Sublist.length_le (h.filter _)) (inv K)

lemma atMostOne_insertLockDoc {s s' : LockColl} {d : LockDoc}
    (h : insertLockDoc s d = .ok s') (inv : atMostOneLockPerKey s) :
    atMostOneLockPerKey s' := by
  unfold insertLockDoc at h
  by_cases hany : s.any (fun x => x.key == d.key)
  · rw [if_pos hany] at h; cases h
  · rw [if_neg hany] at h
    injection h with h
    subst h
    intro K
    rw [List.filter_append]
    by_cases hK : d.key == K
    · have hdK : d.key = K := by simpa using hK
      have hnil : s.filter (fun x => x.key == K) = [] := by
        rw [List.filter_eq_nil_iff]
        intro x hx
        have hx' : (x.key == d.key) = false := by
          have := List.any_eq_true.not.mp hany
          push_neg at this
          simpa using this x hx
        rw [← hdK]
        simpa using hx'
      rw [hnil]
      simp [hK]
    · have hKf : (d.key == K) = false := by simpa using hK
      simpa [List.filter_cons, hKf] using inv K

/-! ### Claim theorem for mutual exclusion -/

/-- C1: from the empty lock collection, under any interleaving of
concurrent callers' insert attempts, releases and TTL expiries, every
reachable state carries at most one lock document per key (the unique
index on `key` is what rejects a second insert), a caller's `InsertOne`
for a held key fails with the duplicate-key error — so every contender
but the holder observes the conflict and stays in the retry loop — and
once no document for the key remains (the holder released or the lease
expired) an insert succeeds, appending the new holder's document. -/
theorem lock_mutual_exclusion :
    ∀ s : LockColl, ReachableLocks s →
      atMostOneLockPerKey s
      ∧ (∀ d : LockDoc, holdsLock s d.key = true → insertLockDoc s d = .error ())
      ∧ (∀ d : LockDoc, holdsLock s d.key = false → insertLockDoc s d = .ok (s ++ [d])) := by
  intro s hreach
  refine ⟨?_, ?_, ?_⟩
  · induction hreach with
    | refl => intro K; simp
    | tail hr step ih =>
      cases step with
      | acquire x d h => exact atMostOne_insertLockDoc h ih
      | acquireConflict d h => exact ih
      | release k inst =>
        exact atMostOne_of_sublist (deleteOneLock_sublist _ k inst) ih
      | ttlExpire t =>
        exact atMostOne_of_sublist (List.filter_sublist _) ih
  · intro d h
    unfold holdsLock at h
    simp [insertLockDoc, h]
  · intro d h
    unfold holdsLock at h
    simp [insertLockDoc, h]

/-- C1 witness: the state holding `hostA`'s lock on `"cert-x"` is
reachable in one acquisition step; there `hostB`'s insert is rejected by
the unique index, while on the empty collection it succeeds. -/
theorem lock_mutual_exclusion_witness :
    atMostOneLockPerKey [⟨"cert-x", "hostA", 60⟩]
    ∧ insertLockDoc [⟨"cert-x", "hostA", 60⟩] ⟨"cert-x", "hostB", 70⟩ = .error ()
    ∧ insertLockDoc [] ⟨"cert-x", "hostB", 70⟩ = .ok [⟨"cert-x", "hostB", 70⟩] := by
  have hreach : ReachableLocks [⟨"cert-x", "hostA", 60⟩] :=
    Relation.ReflTransGen.single
      (LockStep.acquire [] [⟨"cert-x", "hostA", 60⟩] ⟨"cert-x", "hostA", 60⟩ rfl)
  obtain ⟨h1, h2, h3⟩ := lock_mutual_exclusion [⟨"cert-x", "hostA", 60⟩] hreach
  obtain ⟨h4, h5, h6⟩ := lock_mutual_exclusion [] Relation.ReflTransGen.refl
  exact ⟨h1, h2 ⟨"cert-x", "hostB", 70⟩ rfl, h6 ⟨"cert-x", "hostB", 70⟩ rfl⟩
